import Mathlib

/-
Shallow embedding of the `policyeval` rule-evaluation engine
(src/policyeval/{utils,context,rules,registry,engine}.py).

JSON-style payloads are modelled by the inductive `Value`; Python dicts
are modelled as association lists with unique keys (insertion order is
preserved, as in Python 3.7+ dicts).  Stateful methods are modelled by
explicit state passing of an `EvaluationContext`; code that can raise is
modelled with `Except PolicyError`.  Python `datetime` values are
modelled as integers (no claim depends on time).
-/

namespace PolicyEval

/-- JSON-like runtime values (payloads, rule specs, explanation records). -/
inductive Value where
  | null
  | bool (b : Bool)
  | int (n : Int)
  | str (s : String)
  | list (items : List Value)
  | obj (fields : List (String × Value))

/-- Model of `value is None` identity checks in the source. -/
def Value.isNull : Value → Bool
  | .null => true
  | _ => false

/-- Association-list lookup, modelling `dict.__getitem__` / `dict.get`. -/
def assocLookup {α : Type} : List (String × α) → String → Option α
  | [], _ => none
  | (k, v) :: rest, key => if k = key then some v else assocLookup rest key

/-- Association-list update, modelling `dict.__setitem__`: replaces the
value if the key is present, otherwise appends the pair. -/
def assocSet {α : Type} : List (String × α) → String → α → List (String × α)
  | [], key, v => [(key, v)]
  | (k, w) :: rest, key, v =>
      if k = key then (key, v) :: rest else (k, w) :: assocSet rest key v

/-- Association-list removal, modelling `dict.pop(key, None)` on a dict
with unique keys. -/
def assocRemove {α : Type} : List (String × α) → String → List (String × α)
  | [], _ => []
  | (k, w) :: rest, key =>
      if k = key then rest else (k, w) :: assocRemove rest key

def Value.isObj : Value → Bool
  | .obj _ => true
  | _ => false

def Value.isList : Value → Bool
  | .list _ => true
  | _ => false

/-- `spec.get(key)` on a record-shaped value (`none` on non-dicts and
missing keys, like `dict.get` returning `None`). -/
def Value.get? : Value → String → Option Value
  | .obj fields, key => assocLookup fields key
  | _, _ => none

/-- `str.strip()` on a character list: drop surrounding whitespace. -/
def trimChars (cs : List Char) : List Char :=
  ((cs.dropWhile Char.isWhitespace).reverse.dropWhile Char.isWhitespace).reverse

/-- `key.strip().lower()` as a string. -/
def stripLower (s : String) : String :=
  String.mk ((trimChars s.toList).map Char.toLower)

/-- `normalize_key` from utils.py: strip, lowercase, hyphens to
underscores. -/
def normalize_key (key : String) : String :=
  String.mk ((trimChars key.toList).map (fun c => if c.toLower = '-' then '_' else c.toLower))

/-- `is_truthy` from utils.py: the engine's custom truthiness (collections
are always truthy; a handful of strings are falsy). -/
def is_truthy : Value → Bool
  | .null => false
  | .bool b => b
  | .int n => n != 0
  | .str s => !(["", "0", "false", "no", "off"].contains (stripLower s))
  | .list _ => true
  | .obj _ => true

/-- Python's built-in `bool()` coercion on the modelled values (used by
the `or` idioms in the source, e.g. `spec.get("rules") or []`). -/
def pyTruthy : Value → Bool
  | .null => false
  | .bool b => b
  | .int n => n != 0
  | .str s => s != ""
  | .list xs => !xs.isEmpty
  | .obj fs => !fs.isEmpty

/-- Model of Python `int(segment)` as used by `deep_get` on sequence
indices: optional surrounding whitespace, optional sign, decimal digits;
anything else raises `ValueError`, modelled as `none`. -/
def parseIntSeg (s : String) : Option Int :=
  let t := trimChars s.toList
  let signed :=
    match t with
    | '-' :: rest => (true, rest)
    | '+' :: rest => (false, rest)
    | _ => (false, t)
  let core := signed.2
  if core ≠ [] ∧ core.all Char.isDigit then
    let n : Int := Int.ofNat (core.foldl (fun acc c => acc * 10 + (c.toNat - 48)) 0)
    some (if signed.1 then -n else n)
  else
    none

/-- `path.split(".")` on a character list: split at every dot, keeping
empty fields (Python `str.split` with an explicit separator). -/
def splitOnDot : List Char → List Char → List String
  | [], acc => [String.mk acc.reverse]
  | c :: rest, acc =>
      if c = '.' then String.mk acc.reverse :: splitOnDot rest []
      else splitOnDot rest (c :: acc)

/-- `path.split(".")` followed by dropping empty segments, exactly as in
`deep_get`'s list comprehension. -/
def splitPath (path : String) : List String :=
  (splitOnDot path.toList []).filter (fun p => p ≠ "")

/-- The segment-consuming loop of `deep_get` from utils.py. -/
def deepGetParts : Value → List String → Value → Value
  | cur, [], _ => cur
  | cur, part :: rest, dflt =>
      match cur with
      | .obj fields =>
          match assocLookup fields part with
          | some v => deepGetParts v rest dflt
          | none => dflt
      | .list xs =>
          match parseIntSeg part with
          | none => dflt
          | some index =>
              if -(Int.ofNat xs.length) ≤ index ∧ index < Int.ofNat xs.length then
                deepGetParts
                  (xs.getD (Int.toNat (if index < 0 then Int.ofNat xs.length + index else index)) .null)
                  rest dflt
              else dflt
      | _ => dflt

/-- `deep_get` from utils.py. -/
def deep_get (root : Value) (path : String) (dflt : Value) : Value :=
  deepGetParts root (splitPath path) dflt

/-- The engine's error taxonomy (errors.py): syntax, unknown-type,
evaluation and load errors. -/
inductive PolicyError where
  | ruleSyntaxError (msg : String)
  | unknownRuleError (typeName : String)
  | ruleEvaluationError (msg : String)
  | policyLoadError (msg : String)
deriving DecidableEq

/-- `EvaluationContext` from context.py.  `now` is an abstract timestamp. -/
structure EvaluationContext where
  input : Value
  vars : List (String × Value)
  cache : List (String × Value)
  metrics : List (String × Int)
  now : Int
  strict : String

/-- `EvaluationContext.bump` from context.py: normalize the metric name,
then add `amount` to it (missing metrics default to 0). -/
def EvaluationContext.bump (ctx : EvaluationContext) (metric : String) (amount : Int) :
    EvaluationContext :=
  let m := normalize_key metric
  ⟨ctx.input, ctx.vars, ctx.cache,
   assocSet ctx.metrics m ((assocLookup ctx.metrics m).getD 0 + amount),
   ctx.now, ctx.strict⟩

/-- `EvaluationContext.get_var` from context.py. -/
def EvaluationContext.get_var (ctx : EvaluationContext) (key : String) (dflt : Value) : Value :=
  (assocLookup ctx.vars (normalize_key key)).getD dflt

/-- `EvaluationContext.set_var` from context.py. -/
def EvaluationContext.set_var (ctx : EvaluationContext) (key : String) (v : Value) :
    EvaluationContext :=
  ⟨ctx.input, assocSet ctx.vars (normalize_key key) v, ctx.cache, ctx.metrics,
   ctx.now, ctx.strict⟩

/-- Replace the context's cache (used to model in-place cache writes). -/
def EvaluationContext.setCache (ctx : EvaluationContext) (c : List (String × Value)) :
    EvaluationContext :=
  ⟨ctx.input, ctx.vars, c, ctx.metrics, ctx.now, ctx.strict⟩

/-- Observation helper: the current integer value of a metric (0 when the
metric has never been bumped), under the raw (already normalized) name. -/
def EvaluationContext.metricsGet (ctx : EvaluationContext) (m : String) : Int :=
  (assocLookup ctx.metrics m).getD 0

mutual

/-- Model of Python `==` on the embedded values: numeric cross-type
equality between booleans and integers (Python's `True == 1`), structural
equality elsewhere.  Dict equality is modelled structurally on the
ordered field list (the engine only ever compares JSON-decoded data). -/
def pyEq : Value → Value → Bool
  | .null, .null => true
  | .bool a, .bool b => a == b
  | .bool a, .int b => (if a then (1 : Int) else 0) == b
  | .int a, .bool b => a == (if b then (1 : Int) else 0)
  | .int a, .int b => a == b
  | .str a, .str b => a == b
  | .list xs, .list ys => pyEqList xs ys
  | .obj xs, .obj ys => pyEqFields xs ys
  | _, _ => false

def pyEqList : List Value → List Value → Bool
  | [], [] => true
  | x :: xs, y :: ys => pyEq x y && pyEqList xs ys
  | _, _ => false

def pyEqFields : List (String × Value) → List (String × Value) → Bool
  | [], [] => true
  | (k, x) :: xs, (l, y) :: ys => k == l && pyEq x y && pyEqFields xs ys
  | _, _ => false

end

/-- Model of Python `<` on the values the engine compares: integers,
booleans (which are integers in Python) and strings are ordered;
comparing any other combination raises `TypeError`, which the engine
wraps into an evaluation error. -/
def pyLt : Value → Value → Except PolicyError Bool
  | .int a, .int b => .ok (a < b)
  | .int a, .bool b => .ok (a < (if b then (1 : Int) else 0))
  | .bool a, .int b => .ok ((if a then (1 : Int) else 0) < b)
  | .bool a, .bool b => .ok ((if a then (1 : Int) else 0) < (if b then (1 : Int) else 0))
  | .str a, .str b => .ok (a < b)
  | _, _ => .error (.ruleEvaluationError "unorderable types")

/-- Python `<=` on the same ordered types (total orders, so `a <= b` is
the negation of `b < a`). -/
def pyLe (a b : Value) : Except PolicyError Bool :=
  match pyLt b a with
  | .ok r => .ok (!r)
  | .error e => .error e

/-- Whether `needle` occurs at the head of `hay`. -/
def leadMatch : List Char → List Char → Bool
  | [], _ => true
  | _ :: _, [] => false
  | a :: as, b :: bs => a == b && leadMatch as bs

/-- Whether `needle` occurs anywhere in `hay`. -/
def occursIn : List Char → List Char → Bool
  | needle, [] => needle.isEmpty
  | needle, c :: rest => leadMatch needle (c :: rest) || occursIn needle rest

/-- Substring test, modelling Python `sub in s` for strings. -/
def strContainsSub (s sub : String) : Bool :=
  occursIn sub.toList s.toList

/-- Model of Python `x in container`: list membership via `==`, substring
test on strings, key membership on dicts; anything else raises a
`TypeError`, wrapped into an evaluation error. -/
def pyIn (x container : Value) : Except PolicyError Bool :=
  match container with
  | .list xs => .ok (xs.any (fun y => pyEq x y))
  | .str s =>
      match x with
      | .str sub => .ok (strContainsSub s sub)
      | _ => .error (.ruleEvaluationError "in string requires string operand")
  | .obj fields =>
      match x with
      | .str k => .ok (assocLookup fields k).isSome
      | .list _ => .error (.ruleEvaluationError "unhashable type")
      | .obj _ => .error (.ruleEvaluationError "unhashable type")
      | _ => .ok false
  | _ => .error (.ruleEvaluationError "argument is not a container")

/-- The operator dispatch of `CompareRule.evaluate` (rules.py lines
100-121), applied once the actual value is known to be present.  The
`in` case reflects `actual in (self.value or [])`. -/
def compareApplyOp (op : String) (actual target : Value) : Except PolicyError Bool :=
  if op = "eq" then .ok (pyEq actual target)
  else if op = "ne" then .ok (!pyEq actual target)
  else if op = "gt" then pyLt target actual
  else if op = "gte" then pyLe target actual
  else if op = "lt" then pyLt actual target
  else if op = "lte" then pyLe actual target
  else if op = "in" then pyIn actual (if pyTruthy target then target else .list [])
  else if op = "contains" then pyIn target actual
  else if op = "exists" then .ok true
  else .error (.ruleEvaluationError ("Unknown compare op '" ++ op ++ "'"))

/-- `CompareRule.evaluate` from rules.py: bump `rule_eval`, resolve the
path through the context cache (memoizing under `"path:" + path`), then
apply missing-value strict-mode handling or the operator. -/
def compareEvaluate (path op : String) (value : Value) (ctx : EvaluationContext) :
    Except PolicyError (Bool × EvaluationContext) :=
  let ctx1 := ctx.bump "rule_eval" 1
  let cacheKey := "path:" ++ path
  let resolved :=
    match assocLookup ctx1.cache cacheKey with
    | some v => (v, ctx1)
    | none =>
        let a := deep_get ctx1.input path .null
        (a, ctx1.setCache (assocSet ctx1.cache cacheKey a))
  let actual := resolved.1
  let ctx2 := resolved.2
  if actual.isNull then
    if op = "exists" then .ok (false, ctx2)
    else if ctx2.strict = "raise" then
      .error (.ruleEvaluationError ("Missing value at path '" ++ path ++ "'"))
    else if ctx2.strict = "warn" then .ok (false, ctx2.bump "missing" 1)
    else .ok (false, ctx2)
  else
    match compareApplyOp op actual value with
    | .ok b => .ok (b, ctx2)
    | .error e => .error e

/-- `TruthyPathRule.evaluate` from rules.py: resolve the path (no cache,
no `rule_eval` bump), apply strict-mode handling on a missing value,
otherwise test engine truthiness. -/
def truthyEvaluate (path : String) (ctx : EvaluationContext) :
    Except PolicyError (Bool × EvaluationContext) :=
  let val := deep_get ctx.input path .null
  if val.isNull then
    if ctx.strict = "raise" then
      .error (.ruleEvaluationError ("Missing value at path '" ++ path ++ "'"))
    else if ctx.strict = "warn" then .ok (false, ctx.bump "missing" 1)
    else .ok (false, ctx)
  else .ok (is_truthy val, ctx)

/-- The compiled rule tree (the five built-in variants of rules.py). -/
inductive Rule where
  | compare (path : String) (op : String) (value : Value)
  | notRule (rule : Rule)
  | allRule (rules : List Rule)
  | anyRule (rules : List Rule)
  | truthy (path : String)

/-- The `type_name` attribute of each rule variant. -/
def Rule.typeName : Rule → String
  | .compare _ _ _ => "compare"
  | .notRule _ => "not"
  | .allRule _ => "all"
  | .anyRule _ => "any"
  | .truthy _ => "truthy"

mutual

/-- `evaluate` dispatch over the rule variants (rules.py). -/
def Rule.evaluate : Rule → EvaluationContext → Except PolicyError (Bool × EvaluationContext)
  | .compare path op value, ctx => compareEvaluate path op value ctx
  | .notRule r, ctx =>
      match r.evaluate ctx with
      | .ok (b, ctx') => .ok (!b, ctx')
      | .error e => .error e
  | .allRule rs, ctx => evalAll rs ctx
  | .anyRule rs, ctx => evalAny rs ctx
  | .truthy path, ctx => truthyEvaluate path ctx

/-- `AllRule.evaluate`: in-order AND with short-circuit on `false`. -/
def evalAll : List Rule → EvaluationContext → Except PolicyError (Bool × EvaluationContext)
  | [], ctx => .ok (true, ctx)
  | r :: rest, ctx =>
      match r.evaluate ctx with
      | .error e => .error e
      | .ok (b, ctx') => if b then evalAll rest ctx' else .ok (false, ctx')

/-- `AnyRule.evaluate`: in-order OR with short-circuit on `true`. -/
def evalAny : List Rule → EvaluationContext → Except PolicyError (Bool × EvaluationContext)
  | [], ctx => .ok (false, ctx)
  | r :: rest, ctx =>
      match r.evaluate ctx with
      | .error e => .error e
      | .ok (b, ctx') => if b then .ok (true, ctx') else evalAny rest ctx'

end

/-- `explain` (rules.py): `CompareRule` overrides it with an enriched
record (recomputing the path lookup and re-running `evaluate`); every
other variant uses the base-class record `{type, result: evaluate(ctx)}`.
Both re-run `evaluate`, so explanation threads the context. -/
def Rule.explain (r : Rule) (ctx : EvaluationContext) :
    Except PolicyError (Value × EvaluationContext) :=
  match r with
  | .compare path op value =>
      let actual := deep_get ctx.input path .null
      match compareEvaluate path op value ctx with
      | .error e => .error e
      | .ok (res, ctx') =>
          .ok (.obj [("type", .str "compare"), ("path", .str path), ("op", .str op),
                     ("value", value), ("actual", actual), ("result", .bool res)], ctx')
  | _ =>
      match r.evaluate ctx with
      | .error e => .error e
      | .ok (res, ctx') => .ok (.obj [("type", .str r.typeName), ("result", .bool res)], ctx')

/-- A registered rule factory (registry.py).  The five built-ins are
tags whose behavior lives in `applyFactory`; `custom` models a
user-supplied factory function. -/
inductive RuleFactory where
  | compareFactory
  | allFactory
  | anyFactory
  | notFactory
  | truthyFactory
  | custom (run : Value → Except PolicyError Rule)

/-- `RuleRegistry`: the mapping from type names to factories, modelled as
an association list with unique keys (a Python dict). -/
abbrev RuleRegistry := List (String × RuleFactory)

/-- `RuleRegistry.register`: installs or silently overwrites a factory. -/
def RuleRegistry.register (reg : RuleRegistry) (typeName : String) (f : RuleFactory) :
    RuleRegistry :=
  assocSet reg typeName f

/-- `RuleRegistry.unregister`: `dict.pop(type_name, None)`. -/
def RuleRegistry.unregister (reg : RuleRegistry) (typeName : String) : RuleRegistry :=
  assocRemove reg typeName

/-- `parse_compare_rule` from rules.py: requires non-empty string `path`
and `op`; `value` defaults to null. -/
def parse_compare_rule (spec : Value) : Except PolicyError Rule :=
  let path := (spec.get? "path").getD .null
  let op := (spec.get? "op").getD .null
  match path with
  | .str p =>
      if p = "" then .error (.ruleSyntaxError "compare rule requires non-empty 'path'")
      else
        match op with
        | .str o =>
            if o = "" then .error (.ruleSyntaxError "compare rule requires non-empty 'op'")
            else .ok (.compare p o ((spec.get? "value").getD .null))
        | _ => .error (.ruleSyntaxError "compare rule requires non-empty 'op'")
  | _ => .error (.ruleSyntaxError "compare rule requires non-empty 'path'")

/-- The `_truthy` factory body from `register_builtin_rules`. -/
def parseTruthyRule (spec : Value) : Except PolicyError Rule :=
  match (spec.get? "path").getD .null with
  | .str p =>
      if p = "" then .error (.ruleSyntaxError "truthy rule requires non-empty 'path'")
      else .ok (.truthy p)
  | _ => .error (.ruleSyntaxError "truthy rule requires non-empty 'path'")

mutual

/-- `RuleRegistry.create` from registry.py: validate the spec shape and
its `type` field, look up the factory, fail with an unknown-rule error
when absent, otherwise invoke the factory. -/
def RuleRegistry.create (reg : RuleRegistry) (spec : Value) : Except PolicyError Rule :=
  match spec with
  | .obj fields =>
      match assocLookup fields "type" with
      | some (.str typeName) =>
          if typeName = "" then .error (.ruleSyntaxError "rule spec requires non-empty 'type'")
          else
            match assocLookup reg typeName with
            | none => .error (.unknownRuleError typeName)
            | some f => applyFactory f (Value.obj fields) reg
      | _ => .error (.ruleSyntaxError "rule spec requires non-empty 'type'")
  | _ => .error (.ruleSyntaxError "rule spec must be a dict")
termination_by 3 * sizeOf spec + 2
decreasing_by
simp_wf

/-- Behavior of the registered factories (`register_builtin_rules` in
registry.py).  The All/Any factories read `spec.get("rules") or []`, the
Not factory requires a record under `rule`. -/
def applyFactory (f : RuleFactory) (spec : Value) (reg : RuleRegistry) :
    Except PolicyError Rule :=
  match f with
  | .compareFactory => parse_compare_rule spec
  | .truthyFactory => parseTruthyRule spec
  | .allFactory =>
      let raw := (spec.get? "rules").getD .null
      match h : if pyTruthy raw then raw else Value.list [] with
      | .list xs =>
          match createChildren reg xs with
          | .ok rs => .ok (.allRule rs)
          | .error e => .error e
      | _ => .error (.ruleSyntaxError "all rule requires list 'rules'")
  | .anyFactory =>
      let raw := (spec.get? "rules").getD .null
      match h : if pyTruthy raw then raw else Value.list [] with
      | .list xs =>
          match createChildren reg xs with
          | .ok rs => .ok (.anyRule rs)
          | .error e => .error e
      | _ => .error (.ruleSyntaxError "any rule requires list 'rules'")
  | .notFactory =>
      match h : (spec.get? "rule").getD .null with
      | .obj innerFields =>
          match RuleRegistry.create reg (Value.obj innerFields) with
          | .ok r => .ok (.notRule r)
          | .error e => .error e
      | _ => .error (.ruleSyntaxError "not rule requires dict 'rule'")
  | .custom run => run spec
termination_by 3 * sizeOf spec + 1
decreasing_by
all_goals simp_wf
all_goals
  have hsize : ∀ (l : List (String × Value)) (k : String) (w : Value),
      assocLookup l k = some w → sizeOf w < sizeOf l := by
    intro l
    induction l with
    | nil => intro k w hw; simp [assocLookup] at hw
    | cons q rest ih =>
        intro k w hw
        obtain ⟨k1, v1⟩ := q
        simp only [assocLookup] at hw
        split at hw
        · cases hw; simp; omega
        · have := ih _ _ hw; simp; omega
all_goals
  have hget : ∀ (sp v : Value) (key : String), Value.get? sp key = some v → sizeOf v < sizeOf sp := by
    intro sp v key hv
    cases sp <;> simp only [Value.get?] at hv <;> try exact absurd hv (by simp)
    case obj fs =>
      have := hsize _ _ _ hv
      simp only [Value.obj.sizeOf_spec]
      omega
all_goals
  first
  | · have hle : sizeOf xs ≤ sizeOf spec := by
        have hr : raw = (Value.get? spec "rules").getD Value.null := rfl
        rw [hr] at h
        split at h
        · rcases hq : Value.get? spec "rules" with _ | v
          · rw [hq] at h
            simp at h
          · rw [hq] at h
            simp only [Option.getD_some] at h
            have hvs := hget spec v "rules" hq
            rw [h] at hvs
            simp only [Value.list.sizeOf_spec] at hvs
            omega
        · injection h with h2
          subst h2
          have hpos : 1 ≤ sizeOf spec := by cases spec <;> simp
          simp only [List.nil.sizeOf_spec]
          omega
      omega
  | · have hlt : sizeOf (Value.obj innerFields) < sizeOf spec := by
        rcases hq : Value.get? spec "rule" with _ | v
        · rw [hq] at h
          simp at h
        · rw [hq] at h
          simp only [Option.getD_some] at h
          rw [← h]
          exact hget spec v "rule" hq
      have hs : sizeOf (Value.obj innerFields) = 1 + sizeOf innerFields := by simp
      omega

/-- The list comprehension `[r.create(s) for s in items]`. -/
def createChildren (reg : RuleRegistry) (specs : List Value) :
    Except PolicyError (List Rule) :=
  match specs with
  | [] => .ok []
  | s :: rest =>
      match RuleRegistry.create reg s with
      | .error e => .error e
      | .ok r =>
          match createChildren reg rest with
          | .error e => .error e
          | .ok rs => .ok (r :: rs)
termination_by 3 * sizeOf specs
decreasing_by
all_goals simp_wf
all_goals omega

end

/-- `register_builtin_rules` from registry.py, in source registration
order. -/
def register_builtin_rules (reg : RuleRegistry) : RuleRegistry :=
  ((((reg.register "compare" .compareFactory).register
      "all" .allFactory).register
      "any" .anyFactory).register
      "not" .notFactory).register "truthy" .truthyFactory

/-- `get_default_registry`: the process-wide registry holding the five
built-ins (the lazy-singleton aspect is process state; its value is this
constant). -/
def get_default_registry : RuleRegistry :=
  register_builtin_rules []

/-- A validated policy specification (loader.py `PolicySpec`). -/
structure PolicySpec where
  name : String
  effect : String
  rules : List Value

/-- A compiled policy (engine.py `Policy`). -/
structure Policy where
  name : String
  effect : String
  rules : List Rule

/-- The result of policy evaluation (engine.py `Decision`).  The
`explainData` field models the optional `explanation` dict. -/
structure Decision where
  allowed : Bool
  policy : String
  effect : String
  matched : Bool
  explainData : Option Value

/-- The first argument of `PolicyEngine.evaluate`: either an uncompiled
`PolicySpec` or a compiled `Policy` (any other Python value raises a load
error; the typed model only admits these two). -/
inductive PolicyInput where
  | spec (s : PolicySpec)
  | policy (p : Policy)

/-- `PolicyEngine` (engine.py): a registry plus a default strict mode. -/
structure PolicyEngine where
  registry : RuleRegistry
  strict : String

/-- `PolicyEngine.compile`: map every rule spec through
`registry.create`, preserving order. -/
def PolicyEngine.compile (eng : PolicyEngine) (s : PolicySpec) : Except PolicyError Policy :=
  match createChildren eng.registry s.rules with
  | .error e => .error e
  | .ok rs => .ok ⟨s.name, s.effect, rs⟩

/-- The explanation-collection step of the `evaluate` loop: when
`explain` is set, compute the rule's explanation entry (threading the
context through the re-evaluation `explain` performs); otherwise collect
nothing. -/
def explainStep (explain : Bool) (r : Rule) (ctx1 : EvaluationContext) :
    Except PolicyError (List Value × EvaluationContext) :=
  if explain then
    match r.explain ctx1 with
    | .error e => .error e
    | .ok (d, c) => .ok ([d], c)
  else .ok ([], ctx1)

/-- The rule loop of `PolicyEngine.evaluate` (engine.py lines 155-163):
evaluate in order, collect an explanation entry per evaluated rule when
`explain` is set, stop at the first rule evaluating false.  Returns the
aggregate `matched`, the collected explanation entries, and the final
context. -/
def runRules (explain : Bool) :
    List Rule → EvaluationContext → Except PolicyError (Bool × List Value × EvaluationContext)
  | [], ctx => .ok (true, [], ctx)
  | r :: rest, ctx =>
      match r.evaluate ctx with
      | .error e => .error e
      | .ok (res, ctx1) =>
          match explainStep explain r ctx1 with
          | .error e => .error e
          | .ok (ds, ctx2) =>
              if res then
                match runRules explain rest ctx2 with
                | .error e => .error e
                | .ok (m, more, ctx3) => .ok (m, ds ++ more, ctx3)
              else .ok (false, ds, ctx2)

/-- `PolicyEngine.evaluate` (engine.py): resolve the strict mode
(`strict or self.strict`), compile a spec if needed, run the rules in a
fresh context, combine `matched` with the effect, and build the optional
explanation record. -/
def PolicyEngine.evaluate (eng : PolicyEngine) (pol : PolicyInput) (inputData : Value)
    (strict : Option String) (now : Option Int) (explain : Bool) :
    Except PolicyError Decision :=
  let nowVal := now.getD 0
  let strictMode :=
    match strict with
    | some s => if s = "" then eng.strict else s
    | none => eng.strict
  match (match pol with
         | .spec s => eng.compile s
         | .policy p => .ok p) with
  | .error e => .error e
  | .ok compiled =>
      let ctx : EvaluationContext := ⟨inputData, [], [], [], nowVal, strictMode⟩
      match runRules explain compiled.rules ctx with
      | .error e => .error e
      | .ok (matched, details, ctx') =>
          let allowed := if compiled.effect = "allow" then matched else !matched
          let explDict :=
            if explain then
              some (Value.obj
                [("matched", .bool matched), ("effect", .str compiled.effect),
                 ("metrics", .obj (ctx'.metrics.map (fun p => (p.1, Value.int p.2)))),
                 ("rules", .list details)])
            else none
          .ok ⟨allowed, compiled.name, compiled.effect, matched, explDict⟩

/-- Observation helper: the list of boolean results of the rules a
`runRules` pass actually evaluates, threading the context exactly as
`runRules` does (including through `explain`), or `none` when the pass
raises.  Evaluation stops after the first `false`. -/
def evalTrace (explain : Bool) :
    List Rule → EvaluationContext → Option (List Bool)
  | [], _ => some []
  | r :: rest, ctx =>
      match r.evaluate ctx with
      | .error _ => none
      | .ok (res, ctx1) =>
          match explainStep explain r ctx1 with
          | .error _ => none
          | .ok (_, ctx2) =>
              if res then
                match evalTrace explain rest ctx2 with
                | none => none
                | some tr => some (true :: tr)
              else some [false]

/-- Observation helper: the value a `CompareRule` evaluation works with,
i.e. the cached value when `"path:" + path` is memoized, otherwise the
fresh `deep_get` resolution. -/
def cachedResolve (ctx : EvaluationContext) (path : String) : Value :=
  match assocLookup ctx.cache ("path:" ++ path) with
  | some v => v
  | none => deep_get ctx.input path .null

mutual

/-- Whether a rule tree contains a Compare rule anywhere. -/
def hasCompare : Rule → Bool
  | .compare _ _ _ => true
  | .notRule r => hasCompare r
  | .allRule rs => hasCompareList rs
  | .anyRule rs => hasCompareList rs
  | .truthy _ => false

def hasCompareList : List Rule → Bool
  | [] => false
  | r :: rest => hasCompare r || hasCompareList rest

end

theorem assocLookup_assocSet_self {α : Type} (l : List (String × α)) (k : String) (v : α) :
    assocLookup (assocSet l k v) k = some v := by
  induction l with
  | nil => simp [assocSet, assocLookup]
  | cons p rest ih =>
      obtain ⟨k1, v1⟩ := p
      by_cases hk : k1 = k
      · subst hk
        simp [assocSet, assocLookup]
      · simp [assocSet, assocLookup, hk, ih]

theorem assocLookup_assocSet_ne {α : Type} (l : List (String × α)) (k k2 : String) (v : α)
    (hne : k2 ≠ k) : assocLookup (assocSet l k v) k2 = assocLookup l k2 := by
  have hkk : ¬ (k = k2) := fun hh => hne hh.symm
  induction l with
  | nil => simp [assocSet, assocLookup, hkk]
  | cons p rest ih =>
      obtain ⟨k1, v1⟩ := p
      by_cases hk : k1 = k
      · subst hk
        simp [assocSet, assocLookup, hkk]
      · simp [assocSet, assocLookup, hk, ih]

theorem bump_input (ctx : EvaluationContext) (m : String) (a : Int) :
    (ctx.bump m a).input = ctx.input := rfl

theorem bump_cache (ctx : EvaluationContext) (m : String) (a : Int) :
    (ctx.bump m a).cache = ctx.cache := rfl

theorem bump_strict (ctx : EvaluationContext) (m : String) (a : Int) :
    (ctx.bump m a).strict = ctx.strict := rfl

theorem setCache_strict (ctx : EvaluationContext) (c : List (String × Value)) :
    (ctx.setCache c).strict = ctx.strict := rfl

theorem setCache_metricsGet (ctx : EvaluationContext) (c : List (String × Value)) (k : String) :
    (ctx.setCache c).metricsGet k = ctx.metricsGet k := rfl

theorem metricsGet_bump (ctx : EvaluationContext) (m : String) (a : Int) (k : String) :
    (ctx.bump m a).metricsGet k =
      if normalize_key m = k then ctx.metricsGet k + a else ctx.metricsGet k := by
  unfold EvaluationContext.bump EvaluationContext.metricsGet
  by_cases hk : normalize_key m = k
  · rw [if_pos hk, ← hk, assocLookup_assocSet_self]
    rfl
  · rw [if_neg hk, assocLookup_assocSet_ne _ _ _ _ (fun h => hk h.symm)]

/-- Claim C8: `deep_get` resolves a dot-separated path segment by
segment: on map-like values a segment is a string key (missing key gives
the default), on sequence-like values a segment must parse as an integer
with Python-style negative indices (out-of-range or non-numeric segments
give the default), any other current-value type gives the default, and
empty segments are skipped; moreover `deep_get({"a":{"b":1}}, "a.b") = 1`,
`deep_get({"items":[10,20]}, "items.-1") = 20` and
`deep_get({}, "x.y", default=42) = 42`. -/
theorem claim_C8 (fields : List (String × Value)) (xs : List Value) (cur dflt v : Value)
    (part p : String) (rest : List String) (i : Int) :
    (deep_get (.obj [("a", .obj [("b", .int 1)])]) "a.b" .null = .int 1) ∧
    (deep_get (.obj [("items", .list [.int 10, .int 20])]) "items.-1" .null = .int 20) ∧
    (deep_get (.obj []) "x.y" (.int 42) = .int 42) ∧
    (assocLookup fields part = none → deepGetParts (.obj fields) (part :: rest) dflt = dflt) ∧
    (assocLookup fields part = some v →
        deepGetParts (.obj fields) (part :: rest) dflt = deepGetParts v rest dflt) ∧
    (parseIntSeg part = none → deepGetParts (.list xs) (part :: rest) dflt = dflt) ∧
    (parseIntSeg part = some i → ¬(-(Int.ofNat xs.length) ≤ i ∧ i < Int.ofNat xs.length) →
        deepGetParts (.list xs) (part :: rest) dflt = dflt) ∧
    (parseIntSeg part = some i → -(Int.ofNat xs.length) ≤ i → i < 0 →
        deepGetParts (.list xs) (part :: rest) dflt =
          deepGetParts (xs.getD (Int.toNat (Int.ofNat xs.length + i)) .null) rest dflt) ∧
    (cur.isObj = false → cur.isList = false → deepGetParts cur (part :: rest) dflt = dflt) ∧
    ("" ∉ splitPath p) := by
  refine ⟨rfl, rfl, rfl, ?_, ?_, ?_, ?_, ?_, ?_, ?_⟩
  · intro h
    simp [deepGetParts, h]
  · intro h
    simp [deepGetParts, h]
  · intro h
    simp [deepGetParts, h]
  · intro h hb
    simp only [deepGetParts, h]
    rw [if_neg hb]
  · intro h hle hlt
    have hcond : -(Int.ofNat xs.length) ≤ i ∧ i < Int.ofNat xs.length := ⟨hle, by omega⟩
    simp only [deepGetParts, h]
    rw [if_pos hcond, if_pos hlt]
  · intro h1 h2
    cases cur <;> simp_all [deepGetParts, Value.isObj, Value.isList]
  · simp [splitPath, List.mem_filter]

/-- Witness for C8: the map-like missing-key case at a concrete input. -/
theorem claim_C8_witness :
    assocLookup ([] : List (String × Value)) "k" = none ∧
    deepGetParts (.obj []) ["k"] (.int 7) = .int 7 :=
  ⟨rfl, (claim_C8 [] [] .null (.int 7) .null "k" "q" [] 0).2.2.2.1 rfl⟩

theorem evalAll_false_append (rs1 rs2 : List Rule) (ctx ctx' : EvaluationContext)
    (h : evalAll rs1 ctx = .ok (false, ctx')) :
    evalAll (rs1 ++ rs2) ctx = .ok (false, ctx') := by
  induction rs1 generalizing ctx with
  | nil => simp [evalAll] at h
  | cons r rest ih =>
      simp only [List.cons_append, evalAll] at h ⊢
      cases hr : r.evaluate ctx with
      | error e =>
          rw [hr] at h
          exact absurd h (by simp)
      | ok p =>
          obtain ⟨b, c⟩ := p
          rw [hr] at h
          dsimp only at h ⊢
          cases b with
          | true =>
              simp only [if_true] at h ⊢
              exact ih c h
          | false =>
              simpa using h

theorem evalAny_true_append (rs1 rs2 : List Rule) (ctx ctx' : EvaluationContext)
    (h : evalAny rs1 ctx = .ok (true, ctx')) :
    evalAny (rs1 ++ rs2) ctx = .ok (true, ctx') := by
  induction rs1 generalizing ctx with
  | nil => simp [evalAny] at h
  | cons r rest ih =>
      simp only [List.cons_append, evalAny] at h ⊢
      cases hr : r.evaluate ctx with
      | error e =>
          rw [hr] at h
          exact absurd h (by simp)
      | ok p =>
          obtain ⟨b, c⟩ := p
          rw [hr] at h
          dsimp only at h ⊢
          cases b with
          | true =>
              simpa using h
          | false =>
              exact ih c h

/-- Claim C6: `All([])` evaluates true and `Any([])` evaluates false on
every context; for non-empty lists evaluation is in list order and
short-circuits: once a prefix makes All false (resp. Any true) the
result and final context do not depend on any later children. -/
theorem claim_C6 (ctx ctx' : EvaluationContext) (rs1 rs2 : List Rule) :
    (Rule.evaluate (.allRule []) ctx = .ok (true, ctx)) ∧
    (Rule.evaluate (.anyRule []) ctx = .ok (false, ctx)) ∧
    (evalAll rs1 ctx = .ok (false, ctx') → evalAll (rs1 ++ rs2) ctx = .ok (false, ctx')) ∧
    (evalAny rs1 ctx = .ok (true, ctx') → evalAny (rs1 ++ rs2) ctx = .ok (true, ctx')) ∧
    (Rule.evaluate (.allRule rs1) ctx = evalAll rs1 ctx) ∧
    (Rule.evaluate (.anyRule rs1) ctx = evalAny rs1 ctx) := by
  refine ⟨by simp [Rule.evaluate, evalAll], by simp [Rule.evaluate, evalAny],
    evalAll_false_append rs1 rs2 ctx ctx', evalAny_true_append rs1 rs2 ctx ctx',
    by simp [Rule.evaluate], by simp [Rule.evaluate]⟩

/-- Witness for C6: a failing first child short-circuits `All` past a
second child, at a concrete context. -/
theorem claim_C6_witness :
    evalAll [Rule.truthy "x"] ⟨Value.null, [], [], [], 0, "off"⟩ =
      .ok (false, ⟨Value.null, [], [], [], 0, "off"⟩) ∧
    evalAll ([Rule.truthy "x"] ++ [Rule.truthy "y"]) ⟨Value.null, [], [], [], 0, "off"⟩ =
      .ok (false, ⟨Value.null, [], [], [], 0, "off"⟩) := by
  have h1 : evalAll [Rule.truthy "x"] ⟨Value.null, [], [], [], 0, "off"⟩ =
      .ok (false, ⟨Value.null, [], [], [], 0, "off"⟩) := by
    simp [evalAll, Rule.evaluate, truthyEvaluate, deep_get, splitPath, splitOnDot,
          deepGetParts, Value.isNull]
  exact ⟨h1,
    (claim_C6 ⟨Value.null, [], [], [], 0, "off"⟩ ⟨Value.null, [], [], [], 0, "off"⟩
      [Rule.truthy "x"] [Rule.truthy "y"]).2.2.1 h1⟩

theorem compareEvaluate_shape (path op : String) (value : Value) (ctx : EvaluationContext) :
    ∃ ctx', compareEvaluate path op value ctx =
        (if (cachedResolve ctx path).isNull then
           if op = "exists" then .ok (false, ctx')
           else if ctx.strict = "raise" then
             .error (.ruleEvaluationError ("Missing value at path '" ++ path ++ "'"))
           else if ctx.strict = "warn" then .ok (false, ctx'.bump "missing" 1)
           else .ok (false, ctx')
         else
           match compareApplyOp op (cachedResolve ctx path) value with
           | .ok b => .ok (b, ctx')
           | .error e => .error e) ∧
      ctx'.metricsGet "missing" = ctx.metricsGet "missing" ∧
      ctx'.strict = ctx.strict ∧
      ctx'.input = ctx.input ∧
      ctx'.metricsGet "rule_eval" = ctx.metricsGet "rule_eval" + 1 := by
  rcases h : assocLookup ctx.cache ("path:" ++ path) with _ | v
  · refine ⟨(ctx.bump "rule_eval" 1).setCache
        (assocSet ctx.cache ("path:" ++ path) (deep_get ctx.input path .null)),
      ?_, ?_, ?_, ?_, ?_⟩
    · simp only [compareEvaluate, cachedResolve, bump_cache, bump_input, h, setCache_strict,
        bump_strict]
    · rw [setCache_metricsGet, metricsGet_bump, if_neg (by decide)]
    · rfl
    · rfl
    · rw [setCache_metricsGet, metricsGet_bump, if_pos (by decide)]
  · refine ⟨ctx.bump "rule_eval" 1, ?_, ?_, ?_, ?_, ?_⟩
    · simp only [compareEvaluate, cachedResolve, bump_cache, bump_input, h, bump_strict]
    · rw [metricsGet_bump, if_neg (by decide)]
    · rfl
    · rfl
    · rw [metricsGet_bump, if_pos (by decide)]

/-- Claim C7: a Compare rule with `op="exists"` never raises and never
touches the `missing` metric in any strict mode: it evaluates to false
exactly when the (memoized) path resolution is null and to true when a
value is present. -/
theorem claim_C7 (path : String) (value : Value) (ctx : EvaluationContext) :
    ∃ ctx', compareEvaluate path "exists" value ctx =
        .ok (!(cachedResolve ctx path).isNull, ctx') ∧
      ctx'.metricsGet "missing" = ctx.metricsGet "missing" := by
  obtain ⟨ctx', heq, hm, _, _, _⟩ := compareEvaluate_shape path "exists" value ctx
  refine ⟨ctx', ?_, hm⟩
  rw [heq]
  cases hn : (cachedResolve ctx path).isNull with
  | true => simp
  | false => simp [compareApplyOp]

/-- Claim C9: a Compare rule with `op="in"` whose path resolves to a
present value tests membership against the empty collection whenever the
target value is falsy (null, False, 0, empty string, empty list or empty
dict), so it evaluates to false. -/
theorem claim_C9 (path : String) (value : Value) (ctx : EvaluationContext)
    (hfalsy : pyTruthy value = false)
    (hpresent : (cachedResolve ctx path).isNull = false) :
    ∃ ctx', compareEvaluate path "in" value ctx = .ok (false, ctx') := by
  obtain ⟨ctx', heq, _, _, _, _⟩ := compareEvaluate_shape path "in" value ctx
  refine ⟨ctx', ?_⟩
  rw [heq]
  simp [hpresent, compareApplyOp, hfalsy, pyIn]

/-- Witness for C9: target `[]` is falsy and the path is present, so the
rule evaluates false. -/
theorem claim_C9_witness :
    ∃ ctx', compareEvaluate "x" "in" (Value.list [])
        ⟨Value.obj [("x", Value.int 1)], [], [], [], 0, "warn"⟩ = .ok (false, ctx') :=
  claim_C9 "x" (Value.list [])
    ⟨Value.obj [("x", Value.int 1)], [], [], [], 0, "warn"⟩ rfl
    (by simp [cachedResolve, assocLookup, deep_get, splitPath, splitOnDot, deepGetParts,
          Value.isNull])

/-- Claim C2: for a Compare rule with `op` other than `"exists"` (path
not yet cached) and for a TruthyPath rule, when the path resolves to null
against the context's input: strict `"raise"` raises an evaluation error
naming the path; `"warn"` and `"off"` return false instead, with exactly
`"warn"` incrementing the `missing` metric by exactly 1 and `"off"`
leaving it unchanged. -/
theorem claim_C2 (path op : String) (value : Value) (ctx : EvaluationContext)
    (hop : op ≠ "exists")
    (hc : assocLookup ctx.cache ("path:" ++ path) = none)
    (hd : deep_get ctx.input path .null = .null) :
    (ctx.strict = "raise" →
        compareEvaluate path op value ctx =
          .error (.ruleEvaluationError ("Missing value at path '" ++ path ++ "'")) ∧
        truthyEvaluate path ctx =
          .error (.ruleEvaluationError ("Missing value at path '" ++ path ++ "'"))) ∧
    (ctx.strict = "warn" →
        ∃ ctx₁ ctx₂, compareEvaluate path op value ctx = .ok (false, ctx₁) ∧
          ctx₁.metricsGet "missing" = ctx.metricsGet "missing" + 1 ∧
          truthyEvaluate path ctx = .ok (false, ctx₂) ∧
          ctx₂.metricsGet "missing" = ctx.metricsGet "missing" + 1) ∧
    (ctx.strict = "off" →
        ∃ ctx₁ ctx₂, compareEvaluate path op value ctx = .ok (false, ctx₁) ∧
          ctx₁.metricsGet "missing" = ctx.metricsGet "missing" ∧
          truthyEvaluate path ctx = .ok (false, ctx₂) ∧
          ctx₂.metricsGet "missing" = ctx.metricsGet "missing") := by
  obtain ⟨ctx', heq, hm, hstrict, hinput, hre⟩ := compareEvaluate_shape path op value ctx
  have hcr : (cachedResolve ctx path).isNull = true := by
    simp [cachedResolve, hc, hd, Value.isNull]
  refine ⟨?_, ?_, ?_⟩
  · intro hs
    constructor
    · rw [heq]
      simp [hcr, hop, hs]
    · simp [truthyEvaluate, hd, hs, Value.isNull]
  · intro hs
    refine ⟨ctx'.bump "missing" 1, ctx.bump "missing" 1, ?_, ?_, ?_, ?_⟩
    · rw [heq]
      simp [hcr, hop, hs]
    · rw [metricsGet_bump, if_pos (by decide), hm]
    · simp [truthyEvaluate, hd, hs, Value.isNull]
    · rw [metricsGet_bump, if_pos (by decide)]
  · intro hs
    refine ⟨ctx', ctx, ?_, ?_, ?_, ?_⟩
    · rw [heq]
      simp [hcr, hop, hs]
    · exact hm
    · simp [truthyEvaluate, hd, hs, Value.isNull]
    · rfl

/-- Witness for C2: the warn mode at a concrete context with a missing
path. -/
theorem claim_C2_witness :
    ∃ ctx₁ ctx₂,
      compareEvaluate "x" "eq" Value.null ⟨Value.null, [], [], [], 0, "warn"⟩ =
        .ok (false, ctx₁) ∧
      ctx₁.metricsGet "missing" =
        EvaluationContext.metricsGet ⟨Value.null, [], [], [], 0, "warn"⟩ "missing" + 1 ∧
      truthyEvaluate "x" ⟨Value.null, [], [], [], 0, "warn"⟩ = .ok (false, ctx₂) ∧
      ctx₂.metricsGet "missing" =
        EvaluationContext.metricsGet ⟨Value.null, [], [], [], 0, "warn"⟩ "missing" + 1 :=
  (claim_C2 "x" "eq" Value.null ⟨Value.null, [], [], [], 0, "warn"⟩
    (by decide) rfl rfl).2.1 rfl

/-- Claim C1: whenever `evaluate` returns a Decision — for every policy
or spec, input payload, strict mode, and explain flag — an `"allow"`
effect gives `allowed = matched` and a `"deny"` effect gives
`allowed = not matched`. -/
theorem claim_C1 (eng : PolicyEngine) (pol : PolicyInput) (inputData : Value)
    (strict : Option String) (now : Option Int) (explain : Bool) (d : Decision)
    (h : eng.evaluate pol inputData strict now explain = .ok d) :
    (d.effect = "allow" → d.allowed = d.matched) ∧
    (d.effect = "deny" → d.allowed = (!d.matched)) := by
  simp only [PolicyEngine.evaluate] at h
  split at h
  · exact absurd h (by simp)
  · split at h
    · exact absurd h (by simp)
    · injection h with h1
      subst h1
      constructor
      · intro he
        simp only [Decision.effect] at he
        simp [he]
      · intro he
        simp only [Decision.effect] at he
        simp [he]

/-- Witness for C1: an allow-effect policy with no rules evaluates to an
allowed, matched decision. -/
theorem claim_C1_witness :
    (⟨true, "p", "allow", true, none⟩ : Decision).allowed =
      (⟨true, "p", "allow", true, none⟩ : Decision).matched :=
  (claim_C1 ⟨get_default_registry, "warn"⟩ (.policy ⟨"p", "allow", []⟩) .null none none false
    ⟨true, "p", "allow", true, none⟩ (by simp [PolicyEngine.evaluate, runRules])).1 rfl

/-- Claim C3: in every `evaluate()` call, `matched` is true iff every
rule actually evaluated returned true (vacuously true for zero rules);
rules run in list order, iteration stops after the first false rule, and
with `explain` requested the collected explanation list has exactly one
entry per evaluated rule — all rules up to and including the first
failing one, none after it. -/
theorem claim_C3 (explain : Bool) (rules : List Rule) (ctx ctx' : EvaluationContext)
    (m : Bool) (ds : List Value)
    (h : runRules explain rules ctx = .ok (m, ds, ctx')) :
    ∃ tr : List Bool,
      evalTrace explain rules ctx = some tr ∧
      m = tr.all id ∧
      (explain = true → ds.length = tr.length) ∧
      ((m = true ∧ tr = List.replicate rules.length true) ∨
       (m = false ∧ ∃ k, k + 1 ≤ rules.length ∧ tr = List.replicate k true ++ [false])) := by
  induction rules generalizing ctx m ds with
  | nil =>
      simp only [runRules] at h
      obtain ⟨h1, h2, h3⟩ : true = m ∧ [] = ds ∧ ctx = ctx' := by simpa using h
      refine ⟨[], by simp [evalTrace], by simp [← h1], ?_, ?_⟩
      · intro hx
        simp [← h2]
      · left
        exact ⟨h1.symm, by simp⟩
  | cons r rest ih =>
      simp only [runRules] at h
      cases hr : r.evaluate ctx with
      | error e =>
          rw [hr] at h
          exact absurd h (by simp)
      | ok p =>
          obtain ⟨res, ctx1⟩ := p
          rw [hr] at h
          dsimp only at h
          cases hE : explainStep explain r ctx1 with
          | error e =>
              rw [hE] at h
              exact absurd h (by simp)
          | ok q =>
              obtain ⟨ds1, ctx2⟩ := q
              rw [hE] at h
              dsimp only at h
              have hds1 : explain = true → ds1.length = 1 := by
                intro hx
                subst hx
                simp only [explainStep, if_true] at hE
                cases hd : r.explain ctx1 with
                | error e =>
                    rw [hd] at hE
                    exact absurd hE (by simp)
                | ok q2 =>
                    obtain ⟨d, c⟩ := q2
                    rw [hd] at hE
                    obtain ⟨h1, h2⟩ : [d] = ds1 ∧ c = ctx2 := by simpa using hE
                    simp [← h1]
              cases res with
              | true =>
                  cases hrec : runRules explain rest ctx2 with
                  | error e =>
                      rw [hrec] at h
                      exact absurd h (by simp)
                  | ok t =>
                      obtain ⟨m2, more, ctx3⟩ := t
                      rw [hrec] at h
                      obtain ⟨h1, h2, h3⟩ : m2 = m ∧ ds1 ++ more = ds ∧ ctx3 = ctx' := by
                        simpa using h
                      rw [h3] at hrec
                      obtain ⟨tr, htr, hm, hlen, hshape⟩ := ih ctx2 m2 more hrec
                      refine ⟨true :: tr, ?_, ?_, ?_, ?_⟩
                      · simp [evalTrace, hr, hE, htr]
                      · rw [← h1, hm]
                        simp
                      · intro hx
                        rw [← h2]
                        simp [hds1 hx, hlen hx]
                        omega
                      · rcases hshape with ⟨hmt, htr2⟩ | ⟨hmf, k, hk, htr2⟩
                        · left
                          refine ⟨h1 ▸ hmt, ?_⟩
                          simp [htr2, List.replicate_succ]
                        · right
                          refine ⟨h1 ▸ hmf, k + 1, by simp; omega, ?_⟩
                          simp [htr2, List.replicate_succ]
              | false =>
                  obtain ⟨h1, h2, h3⟩ : false = m ∧ ds1 = ds ∧ ctx2 = ctx' := by simpa using h
                  refine ⟨[false], ?_, by simp [← h1], ?_, ?_⟩
                  · simp [evalTrace, hr, hE]
                  · intro hx
                    rw [← h2]
                    simp [hds1 hx]
                  · right
                    refine ⟨h1.symm, 0, ?_, by simp⟩
                    simp

/-- Witness for C3: one truthy rule that evaluates false under strict
"off" yields a one-entry trace and a one-entry explanation list. -/
theorem claim_C3_witness :
    ∃ tr : List Bool,
      evalTrace true [Rule.truthy "a"] ⟨Value.null, [], [], [], 0, "off"⟩ = some tr ∧
      false = tr.all id ∧
      (true = true →
        ([Value.obj [("type", Value.str "truthy"), ("result", Value.bool false)]].length =
          tr.length)) ∧
      ((false = true ∧ tr = List.replicate [Rule.truthy "a"].length true) ∨
       (false = false ∧
        ∃ k, k + 1 ≤ [Rule.truthy "a"].length ∧ tr = List.replicate k true ++ [false])) :=
  claim_C3 true [Rule.truthy "a"] ⟨Value.null, [], [], [], 0, "off"⟩
    ⟨Value.null, [], [], [], 0, "off"⟩ false
    [Value.obj [("type", Value.str "truthy"), ("result", Value.bool false)]]
    (by simp [runRules, explainStep, Rule.explain, Rule.evaluate, Rule.typeName,
          truthyEvaluate, deep_get, splitPath, splitOnDot, deepGetParts, Value.isNull])

/-- Counterexample for C5: a spec of type `"all"` whose `rules` field is
present with the non-list value `0` does NOT fail with a syntax error —
`spec.get("rules") or []` treats the falsy `0` as an absent field, so
construction succeeds with an empty child list. -/
theorem claim_C5_counterexample :
    RuleRegistry.create get_default_registry
        (Value.obj [("type", Value.str "all"), ("rules", Value.int 0)]) =
      .ok (.allRule []) := by
  simp [RuleRegistry.create, applyFactory, createChildren, get_default_registry,
        register_builtin_rules, RuleRegistry.register, assocSet, assocLookup,
        Value.get?, pyTruthy]

/-- Claim C5 (amended): for `all`/`any` specs, an absent `rules` field —
and likewise a present `rules` field holding any FALSY value (null,
false, 0, empty string, empty collection) — is treated as the empty
list and construction succeeds; a present truthy non-list `rules` value
fails with a syntax error.  For `not` specs, a missing or non-record
`rule` field fails with a syntax error. -/
theorem claim_C5 (fields : List (String × Value)) (v w : Value) :
    (assocLookup fields "type" = some (.str "all") → assocLookup fields "rules" = none →
        RuleRegistry.create get_default_registry (.obj fields) = .ok (.allRule [])) ∧
    (assocLookup fields "type" = some (.str "any") → assocLookup fields "rules" = none →
        RuleRegistry.create get_default_registry (.obj fields) = .ok (.anyRule [])) ∧
    (assocLookup fields "type" = some (.str "all") → assocLookup fields "rules" = some v →
        pyTruthy v = false →
        RuleRegistry.create get_default_registry (.obj fields) = .ok (.allRule [])) ∧
    (assocLookup fields "type" = some (.str "any") → assocLookup fields "rules" = some v →
        pyTruthy v = false →
        RuleRegistry.create get_default_registry (.obj fields) = .ok (.anyRule [])) ∧
    (assocLookup fields "type" = some (.str "all") → assocLookup fields "rules" = some v →
        pyTruthy v = true → v.isList = false →
        RuleRegistry.create get_default_registry (.obj fields) =
          .error (.ruleSyntaxError "all rule requires list 'rules'")) ∧
    (assocLookup fields "type" = some (.str "any") → assocLookup fields "rules" = some v →
        pyTruthy v = true → v.isList = false →
        RuleRegistry.create get_default_registry (.obj fields) =
          .error (.ruleSyntaxError "any rule requires list 'rules'")) ∧
    (assocLookup fields "type" = some (.str "not") → assocLookup fields "rule" = none →
        RuleRegistry.create get_default_registry (.obj fields) =
          .error (.ruleSyntaxError "not rule requires dict 'rule'")) ∧
    (assocLookup fields "type" = some (.str "not") → assocLookup fields "rule" = some w →
        w.isObj = false →
        RuleRegistry.create get_default_registry (.obj fields) =
          .error (.ruleSyntaxError "not rule requires dict 'rule'")) := by
  refine ⟨?_, ?_, ?_, ?_, ?_, ?_, ?_, ?_⟩
  · intro ht hr
    simp [RuleRegistry.create, applyFactory, get_default_registry, register_builtin_rules,
          RuleRegistry.register, assocSet, assocLookup, Value.get?, ht]
    rw [hr]
    split <;> simp_all [createChildren, pyTruthy]
  · intro ht hr
    simp [RuleRegistry.create, applyFactory, get_default_registry, register_builtin_rules,
          RuleRegistry.register, assocSet, assocLookup, Value.get?, ht]
    rw [hr]
    split <;> simp_all [createChildren, pyTruthy]
  · intro ht hr hf
    simp [RuleRegistry.create, applyFactory, get_default_registry, register_builtin_rules,
          RuleRegistry.register, assocSet, assocLookup, Value.get?, ht]
    rw [hr]
    split <;> simp_all [createChildren]
  · intro ht hr hf
    simp [RuleRegistry.create, applyFactory, get_default_registry, register_builtin_rules,
          RuleRegistry.register, assocSet, assocLookup, Value.get?, ht]
    rw [hr]
    split <;> simp_all [createChildren]
  · intro ht hr hf hl
    simp [RuleRegistry.create, applyFactory, get_default_registry, register_builtin_rules,
          RuleRegistry.register, assocSet, assocLookup, Value.get?, ht]
    rw [hr]
    split <;> simp_all [Value.isList]
  · intro ht hr hf hl
    simp [RuleRegistry.create, applyFactory, get_default_registry, register_builtin_rules,
          RuleRegistry.register, assocSet, assocLookup, Value.get?, ht]
    rw [hr]
    split <;> simp_all [Value.isList]
  · intro ht hr
    simp [RuleRegistry.create, applyFactory, get_default_registry, register_builtin_rules,
          RuleRegistry.register, assocSet, assocLookup, Value.get?, ht]
    rw [hr]
    split <;> simp_all
  · intro ht hr hw
    simp [RuleRegistry.create, applyFactory, get_default_registry, register_builtin_rules,
          RuleRegistry.register, assocSet, assocLookup, Value.get?, ht]
    rw [hr]
    split <;> simp_all [Value.isObj]

/-- Witness for C5 (amended): an `all` spec with no `rules` field
constructs the empty conjunction. -/
theorem claim_C5_witness :
    RuleRegistry.create get_default_registry
        (Value.obj [("type", Value.str "all")]) = .ok (.allRule []) :=
  (claim_C5 [("type", Value.str "all")] .null .null).1 rfl rfl

/-- Counterexample for C4: `register` called with the empty string DOES
leave an empty-string entry in the mapping — `register` stores under any
type name unconditionally. -/
theorem claim_C4_counterexample :
    (assocLookup (RuleRegistry.register [] "" RuleFactory.compareFactory) "").isSome = true :=
  rfl

/-- Claim C4 (amended): `register` stores under any type name — including
the empty string, so the no-empty-string invariant does not hold for
`register` itself; however `create` rejects an empty `type` with a syntax
error before consulting the registry, the default registry carries no
empty-string entry, and `register` with an already-registered type name
silently replaces the existing factory (other entries untouched). -/
theorem claim_C4 (reg : RuleRegistry) (n m : String) (f g : RuleFactory)
    (fields : List (String × Value)) :
    (assocLookup (reg.register n f) n = some f) ∧
    (m ≠ n → assocLookup (reg.register n f) m = assocLookup reg m) ∧
    (assocLookup ((reg.register n f).register n g) n = some g) ∧
    (assocLookup (reg.register "" f) "" = some f) ∧
    (assocLookup get_default_registry "" = none) ∧
    (assocLookup fields "type" = some (.str "") →
        RuleRegistry.create reg (.obj fields) =
          .error (.ruleSyntaxError "rule spec requires non-empty 'type'")) := by
  refine ⟨assocLookup_assocSet_self reg n f,
    fun hm => assocLookup_assocSet_ne reg n m f hm,
    assocLookup_assocSet_self _ n g,
    assocLookup_assocSet_self reg "" f,
    rfl, ?_⟩
  intro ht
  simp [RuleRegistry.create, ht]

/-- Witness for C4 (amended): overwriting registration and empty-type
rejection at concrete inputs. -/
theorem claim_C4_witness :
    assocLookup (RuleRegistry.register [] "a" RuleFactory.compareFactory) "b" =
      assocLookup ([] : RuleRegistry) "b" ∧
    RuleRegistry.create [] (.obj [("type", Value.str "")]) =
      .error (.ruleSyntaxError "rule spec requires non-empty 'type'") :=
  ⟨(claim_C4 [] "a" "b" RuleFactory.compareFactory RuleFactory.compareFactory
      [("type", Value.str "")]).2.1 (by decide),
   (claim_C4 [] "a" "b" RuleFactory.compareFactory RuleFactory.compareFactory
      [("type", Value.str "")]).2.2.2.2.2 rfl⟩


theorem truthyEvaluate_frame (path : String) (ctx : EvaluationContext) (b : Bool)
    (ctx' : EvaluationContext) (h : truthyEvaluate path ctx = .ok (b, ctx')) :
    ctx'.cache = ctx.cache ∧ ctx'.metricsGet "rule_eval" = ctx.metricsGet "rule_eval" := by
  simp only [truthyEvaluate] at h
  split at h
  · split at h
    · exact absurd h (by simp)
    · split at h
      · obtain ⟨hb, hc⟩ : false = b ∧ ctx.bump "missing" 1 = ctx' := by simpa using h
        constructor
        · rw [← hc]
          rfl
        · rw [← hc, metricsGet_bump, if_neg (by decide)]
      · obtain ⟨hb, hc⟩ : false = b ∧ ctx = ctx' := by simpa using h
        rw [← hc]
        exact ⟨rfl, rfl⟩
  · obtain ⟨hb, hc⟩ : is_truthy _ = b ∧ ctx = ctx' := by simpa using h
    rw [← hc]
    exact ⟨rfl, rfl⟩

mutual

theorem evalRuleNoCompare (r : Rule) (ctx : EvaluationContext) (b : Bool)
    (ctx' : EvaluationContext) (hnc : hasCompare r = false)
    (h : r.evaluate ctx = .ok (b, ctx')) :
    ctx'.metricsGet "rule_eval" = ctx.metricsGet "rule_eval" := by
  cases r with
  | compare p o v => simp [hasCompare] at hnc
  | notRule r1 =>
      simp only [Rule.evaluate] at h
      cases hr : r1.evaluate ctx with
      | error e =>
          rw [hr] at h
          exact absurd h (by simp)
      | ok q =>
          obtain ⟨b1, c1⟩ := q
          rw [hr] at h
          obtain ⟨hb, hc⟩ : (!b1) = b ∧ c1 = ctx' := by simpa using h
          rw [← hc]
          exact evalRuleNoCompare r1 ctx b1 c1 (by simpa [hasCompare] using hnc) hr
  | allRule rs =>
      simp only [Rule.evaluate] at h
      exact evalAllNoCompare rs ctx b ctx' (by simpa [hasCompare] using hnc) h
  | anyRule rs =>
      simp only [Rule.evaluate] at h
      exact evalAnyNoCompare rs ctx b ctx' (by simpa [hasCompare] using hnc) h
  | truthy p =>
      simp only [Rule.evaluate] at h
      exact (truthyEvaluate_frame p ctx b ctx' h).2

theorem evalAllNoCompare (rs : List Rule) (ctx : EvaluationContext) (b : Bool)
    (ctx' : EvaluationContext) (hnc : hasCompareList rs = false)
    (h : evalAll rs ctx = .ok (b, ctx')) :
    ctx'.metricsGet "rule_eval" = ctx.metricsGet "rule_eval" := by
  cases rs with
  | nil =>
      obtain ⟨hb, hc⟩ : true = b ∧ ctx = ctx' := by simpa [evalAll] using h
      rw [← hc]
  | cons r rest =>
      simp only [evalAll] at h
      cases hr : r.evaluate ctx with
      | error e =>
          rw [hr] at h
          exact absurd h (by simp)
      | ok q =>
          obtain ⟨b1, c1⟩ := q
          rw [hr] at h
          have hnc1 : hasCompare r = false ∧ hasCompareList rest = false := by
            simpa [hasCompareList] using hnc
          have base := evalRuleNoCompare r ctx b1 c1 hnc1.1 hr
          cases b1 with
          | true =>
              have h2 : evalAll rest c1 = .ok (b, ctx') := by simpa using h
              exact (evalAllNoCompare rest c1 b ctx' hnc1.2 h2).trans base
          | false =>
              obtain ⟨hb, hc⟩ : false = b ∧ c1 = ctx' := by simpa using h
              rw [← hc]
              exact base

theorem evalAnyNoCompare (rs : List Rule) (ctx : EvaluationContext) (b : Bool)
    (ctx' : EvaluationContext) (hnc : hasCompareList rs = false)
    (h : evalAny rs ctx = .ok (b, ctx')) :
    ctx'.metricsGet "rule_eval" = ctx.metricsGet "rule_eval" := by
  cases rs with
  | nil =>
      obtain ⟨hb, hc⟩ : false = b ∧ ctx = ctx' := by simpa [evalAny] using h
      rw [← hc]
  | cons r rest =>
      simp only [evalAny] at h
      cases hr : r.evaluate ctx with
      | error e =>
          rw [hr] at h
          exact absurd h (by simp)
      | ok q =>
          obtain ⟨b1, c1⟩ := q
          rw [hr] at h
          have hnc1 : hasCompare r = false ∧ hasCompareList rest = false := by
            simpa [hasCompareList] using hnc
          have base := evalRuleNoCompare r ctx b1 c1 hnc1.1 hr
          cases b1 with
          | true =>
              obtain ⟨hb, hc⟩ : true = b ∧ c1 = ctx' := by simpa using h
              rw [← hc]
              exact base
          | false =>
              have h2 : evalAny rest c1 = .ok (b, ctx') := by simpa using h
              exact (evalAnyNoCompare rest c1 b ctx' hnc1.2 h2).trans base

end

/-- Claim C10: evaluating a TruthyPath rule never writes the context's
cache and never reads it (its outcome is unchanged under any cache
replacement), and never increments the `rule_eval` metric; among the
built-in variants only Compare increments `rule_eval` — any rule tree
free of Compare leaves it unchanged, while a Compare evaluation adds
exactly 1. -/
theorem claim_C10 (path : String) (ctx ctx' : EvaluationContext) (c : List (String × Value))
    (r : Rule) (b : Bool) (pathC opC : String) (valueC : Value) :
    (truthyEvaluate path ctx = .ok (b, ctx') →
        ctx'.cache = ctx.cache ∧ ctx'.metricsGet "rule_eval" = ctx.metricsGet "rule_eval") ∧
    ((truthyEvaluate path (ctx.setCache c)).map (fun q => q.1) =
        (truthyEvaluate path ctx).map (fun q => q.1)) ∧
    (hasCompare r = false → r.evaluate ctx = .ok (b, ctx') →
        ctx'.metricsGet "rule_eval" = ctx.metricsGet "rule_eval") ∧
    (hasCompare (.truthy path) = false) ∧
    (compareEvaluate pathC opC valueC ctx = .ok (b, ctx') →
        ctx'.metricsGet "rule_eval" = ctx.metricsGet "rule_eval" + 1) := by
  refine ⟨truthyEvaluate_frame path ctx b ctx', ?_,
    fun hnc h => evalRuleNoCompare r ctx b ctx' hnc h, rfl, ?_⟩
  · simp only [truthyEvaluate]
    have h1 : (ctx.setCache c).input = ctx.input := rfl
    have h2 : (ctx.setCache c).strict = ctx.strict := rfl
    rw [h1, h2]
    split <;> (try split) <;> (try split) <;> simp [Except.map]
  · intro h
    obtain ⟨ctx₀, heq, hm, hs, hi, hre⟩ := compareEvaluate_shape pathC opC valueC ctx
    rw [heq] at h
    split at h
    · split at h
      · obtain ⟨hb, hc⟩ : false = b ∧ ctx₀ = ctx' := by simpa using h
        rw [← hc]
        exact hre
      · split at h
        · exact absurd h (by simp)
        · split at h
          · obtain ⟨hb, hc⟩ : false = b ∧ ctx₀.bump "missing" 1 = ctx' := by simpa using h
            rw [← hc, metricsGet_bump, if_neg (by decide)]
            exact hre
          · obtain ⟨hb, hc⟩ : false = b ∧ ctx₀ = ctx' := by simpa using h
            rw [← hc]
            exact hre
    · cases hop : compareApplyOp opC (cachedResolve ctx pathC) valueC with
      | error e =>
          rw [hop] at h
          exact absurd h (by simp)
      | ok b2 =>
          rw [hop] at h
          obtain ⟨hb, hc⟩ : b2 = b ∧ ctx₀ = ctx' := by simpa using h
          rw [← hc]
          exact hre

/-- Witness for C10: a warn-mode TruthyPath evaluation on a missing path
(final context differs by the `missing` bump) leaves the cache and the
`rule_eval` metric untouched. -/
theorem claim_C10_witness :
    (EvaluationContext.bump ⟨Value.null, [], [("k", Value.int 5)], [], 0, "warn"⟩
        "missing" 1).cache =
      EvaluationContext.cache ⟨Value.null, [], [("k", Value.int 5)], [], 0, "warn"⟩ ∧
    (EvaluationContext.bump ⟨Value.null, [], [("k", Value.int 5)], [], 0, "warn"⟩
        "missing" 1).metricsGet "rule_eval" =
      EvaluationContext.metricsGet ⟨Value.null, [], [("k", Value.int 5)], [], 0, "warn"⟩
        "rule_eval" :=
  (claim_C10 "x" ⟨Value.null, [], [("k", Value.int 5)], [], 0, "warn"⟩
    (EvaluationContext.bump ⟨Value.null, [], [("k", Value.int 5)], [], 0, "warn"⟩ "missing" 1)
    [] (Rule.truthy "x") false "p" "eq" Value.null).1
    (by simp [truthyEvaluate, deep_get, splitPath, splitOnDot, deepGetParts, Value.isNull])

end PolicyEval
